import Mathlib

/-
Verification development for the EnronEmailParser repository.

The Python sources under src/ are shallowly embedded below:
  - Python str is modelled as Str (List Char); string literals enter as
    String.data applied to a Lean string literal.
  - Python dict is modelled as an association list (List (key, value)) with
    first-match lookup (alookup) and in-place update (aset).
  - Python set / frozenset valued data is modelled as a duplicate-free list
    (built with dedup) or, where only set equality matters, as a Finset.
  - External library calls (hashlib md5 digests, dateutil parsing, the re
    module) are embedded as follows: digests and already-parsed datetimes are
    taken as opaque inputs, and each regular expression of the source is
    translated into an explicit character-level function next to its use site.
  - Functions that raise exceptions are embedded in Except.
-/

/-! ## Basic string and dictionary helpers -/

/-- Characters of a Python str. -/
abbrev Str := List Char

/-- Dictionary lookup: first binding wins. -/
def alookup {α β : Type} [DecidableEq α] : List (α × β) → α → Option β
  | [], _ => none
  | (k, v) :: t, a => if a = k then some v else alookup t a

/-- Dictionary store: replace the binding of the key if present, else append it.
This models a Python dict item assignment. -/
def aset {α β : Type} [DecidableEq α] (m : List (α × β)) (k : α) (v : β) :
    List (α × β) :=
  match m with
  | [] => [(k, v)]
  | (k1, v1) :: t => if k = k1 then (k, v) :: t else (k1, v1) :: aset t k v

/-- Lowercase one character, as Python str.lower does on ASCII letters. -/
def lowerChar (c : Char) : Char :=
  if 65 ≤ c.toNat ∧ c.toNat ≤ 90 then Char.ofNat (c.toNat + 32) else c

/-- Lowercase a string, modelling Python str.lower (ASCII range). -/
def lowerL (s : Str) : Str := s.map lowerChar

/-- Whitespace characters stripped by Python str.strip. -/
def isSpaceChar (c : Char) : Bool :=
  c = ' ' || c = '\t' || c = '\n' || c = '\r'

/-- Strip leading and trailing whitespace, modelling Python str.strip. -/
def trimL (s : Str) : Str :=
  ((s.dropWhile isSpaceChar).reverse.dropWhile isSpaceChar).reverse

/-- Split a string on every occurrence of a single character, modelling
Python str.split with a one-character separator. -/
def splitChar (c : Char) : Str → List Str
  | [] => [[]]
  | x :: t =>
    if x = c then [] :: splitChar c t
    else
      match splitChar c t with
      | h :: r => (x :: h) :: r
      | [] => [[x]]

/-- Index of the first occurrence of a pattern inside a string. -/
def findOcc (pat : Str) : Str → Option Nat
  | [] => if pat.isPrefixOf ([] : Str) then some 0 else none
  | s@(_ :: t) =>
    if pat.isPrefixOf s then some 0 else (findOcc pat t).map (· + 1)

/-- Fueled worker for splitOnL; the fuel is always sufficient because every
recursive step removes at least one character. -/
def splitOnFuel (sep : Str) : Nat → Str → List Str
  | 0, s => [s]
  | fuel + 1, s =>
    match findOcc sep s with
    | none => [s]
    | some i => s.take i :: splitOnFuel sep fuel (s.drop (i + sep.length))

/-- Split a string on every non-overlapping occurrence of a non-empty
separator, modelling Python str.split with a multi-character separator. -/
def splitOnL (sep s : Str) : List Str :=
  if sep = [] then [s] else splitOnFuel sep s.length s

/-- Substring test, modelling the Python expression pat in s. -/
def containsSub (pat s : Str) : Bool := (findOcc pat s).isSome

/-- Union of two duplicate-free lists viewed as sets, modelling set union. -/
def sunion (l1 l2 : List Str) : List Str := (l1 ++ l2).dedup

/-! ## Stage A alias validity filter
Source: src/post_processing/1_user_postprocessing.py, _filter_invalid_aliases.
The isinstance check of the source is vacuous here because every element of
the embedded list is a string. -/

/-- Filter a set of aliases, keeping an alias that contains an at sign iff its
length is at most 60 and any other alias iff its length is at most 35. -/
def _filter_invalid_aliases (aliases_set : List Str) : List Str :=
  aliases_set.filter (fun a =>
    if '@' ∈ a then decide (a.length ≤ 60) else decide (a.length ≤ 35))

/-! ## Thread splitting
Source: src/email_pipeline/pipeline.py, process_file_contents, lines 32-48.
Only the segmentation of the canonical text into the parent segment and the
child segments is embedded; per-segment processing is modelled separately. -/

/-- Reply separator marker used by process_file_contents. -/
def replySeparator : Str := "-----Original Message-----".data

/-- Segmentation performed by process_file_contents: the text is split on the
separator; the parent segment is the whole text when no separator occurs and
the first piece otherwise; the child segments are the pieces of index 1 up to
but excluding the last piece (Python slice 1:-1). -/
def process_file_contents_split (canon_email : Str) : Str × List Str :=
  let email_split := splitOnL replySeparator canon_email
  let email_split_size := email_split.length
  let parent_email := if email_split_size ≤ 1 then canon_email else email_split.headD canon_email
  let child_emails := if email_split_size ≤ 1 then [] else (email_split.drop 1).dropLast
  (parent_email, child_emails)

/-! ## Date normalization
Source: src/email_pipeline/_helpers.py, _parse_parent_date (lines 46-62) and
_parse_child_email_date (lines 64-81). The external dateutil parse call is
abstracted: the parent path receives the already-parsed timezone-aware
datetime, the child path receives the already-parsed naive wall-clock value.
A timezone-aware datetime is modelled by its absolute instant (minutes since
the epoch) together with its UTC offset in minutes. -/

/-- Timezone-aware datetime: absolute instant in minutes since the epoch and
the UTC offset of its representation. -/
structure PyDateTime where
  instant : Int
  utcoffset : Int
deriving DecidableEq

/-- Convert a datetime to another timezone: the instant is unchanged, only
the representation offset changes. Models datetime.astimezone. -/
def astimezone (dt : PyDateTime) (offsetMinutes : Int) : PyDateTime :=
  ⟨dt.instant, offsetMinutes⟩

/-- Parent date path: the parsed aware datetime is converted to UTC, and the
so-called normalized datetime is that same UTC datetime converted to UTC
again. -/
def _parse_parent_date (parsed_dt : PyDateTime) : PyDateTime × PyDateTime :=
  let original_dt_aware := astimezone parsed_dt 0
  let normalized_dt_utc := astimezone original_dt_aware 0
  (original_dt_aware, normalized_dt_utc)

/-- Child date path: the parsed naive wall-clock value is stamped with the
parent timezone (datetime.replace, keeping the wall-clock reading), and the
normalized datetime is its conversion to UTC. -/
def _parse_child_email_date (parsed_naive_wall : Int) (parent_tz_offset : Int) :
    PyDateTime × PyDateTime :=
  let original_dt_aware : PyDateTime :=
    ⟨parsed_naive_wall - parent_tz_offset, parent_tz_offset⟩
  (original_dt_aware, astimezone original_dt_aware 0)

/-- UTC calendar day of a datetime, for coarse date bucketing. -/
def utcDay (dt : PyDateTime) : Int := dt.instant / 1440

/-! ## Stage B group recompute
Source: src/post_processing/2_group_postprocessing.py, update_user_list
(lines 33-47) and the deduplication loop (lines 55-72). -/

/-- Remap the members of one group: members on the delete list are skipped,
remaining members are sent through the child-to-parent map (identity when
unmapped), and the result is the set of updated members. -/
def update_user_list (to_delete_set : Finset Int)
    (user_remap_dict : List (Int × Int)) (user_ids : List Int) : Finset Int :=
  ((user_ids.filter (fun u => u ∉ to_delete_set)).map
    (fun u => (alookup user_remap_dict u).getD u)).toFinset

/-- Deduplication loop over the group rows: a group whose updated member set
is empty is remapped to the sentinel -1; a group whose updated member set was
already seen is remapped to the first-seen group id; otherwise the group
claims its member set. Returns the seen map and the remap table. -/
def dedup_groups (rows : List (Int × Finset Int)) :
    List (Finset Int × Int) × List (Int × Int) :=
  rows.foldl
    (fun acc row =>
      if row.2 = ∅ then (acc.1, acc.2 ++ [(row.1, -1)])
      else
        match alookup acc.1 row.2 with
        | some canonical =>
          if row.1 ≠ canonical then (acc.1, acc.2 ++ [(row.1, canonical)])
          else (acc.1, acc.2)
        | none => (acc.1 ++ [(row.2, row.1)], acc.2))
    ([], [])

/-! ## Claim theorems for the components above -/

/-- Claim C8: the Stage A alias validity filter keeps exactly the aliases
whose length is at most 60 when the alias contains an at sign and at most 35
otherwise; at the boundaries, an at-sign alias of length 61 is dropped and
one of length 60 is kept, and a plain alias of length 36 is dropped and one
of length 35 is kept. -/
theorem C8_alias_filter :
    (∀ (l : List Str) (a : Str),
      a ∈ _filter_invalid_aliases l ↔
        a ∈ l ∧ ((('@' ∈ a) ∧ a.length ≤ 60) ∨ (('@' ∉ a) ∧ a.length ≤ 35))) ∧
    _filter_invalid_aliases [List.replicate 60 'a' ++ ['@']] = [] ∧
    _filter_invalid_aliases [List.replicate 59 'a' ++ ['@']] =
      [List.replicate 59 'a' ++ ['@']] ∧
    _filter_invalid_aliases [List.replicate 36 'b'] = [] ∧
    _filter_invalid_aliases [List.replicate 35 'b'] = [List.replicate 35 'b'] := by
  refine ⟨fun l a => ?_, by decide, by decide, by decide, by decide⟩
  unfold _filter_invalid_aliases
  rw [List.mem_filter]
  constructor
  · rintro ⟨hmem, hcond⟩
    refine ⟨hmem, ?_⟩
    by_cases h : '@' ∈ a
    · left
      rw [if_pos h] at hcond
      exact ⟨h, by simpa using hcond⟩
    · right
      rw [if_neg h] at hcond
      exact ⟨h, by simpa using hcond⟩
  · rintro ⟨hmem, hcond⟩
    refine ⟨hmem, ?_⟩
    rcases hcond with ⟨h, hlen⟩ | ⟨h, hlen⟩
    · rw [if_pos h]; simpa using hlen
    · rw [if_neg h]; simpa using hlen

/-- Claim C2 (recording the divergence): on a thread with exactly one reply
separator, the code yields the text before the separator as the parent
segment but produces no child segment at all, because the slice 1:-1 always
drops the final piece; with two separators only the middle piece survives as
a child. The claim states that the text after the last separator becomes a
child segment. -/
theorem C2_split_drops_last :
    process_file_contents_split
        ("Parent".data ++ replySeparator ++ "Child".data) =
      ("Parent".data, []) ∧
    process_file_contents_split
        ("P".data ++ replySeparator ++ "C1".data ++ replySeparator ++ "C2".data) =
      ("P".data, ["C1".data]) := by
  constructor
  · rfl
  · rfl

/-- Claim C6 (recording the divergence): along both date paths the so-called
normalized timestamp is exactly the original instant expressed in UTC, with
its time of day preserved; consequently two messages on the same UTC day but
different times of day receive different normalized timestamps, contradicting
the documented normalization to a fixed reference time of day. -/
theorem C6_no_time_normalization :
    (∀ dt : PyDateTime, (_parse_parent_date dt).2 = (_parse_parent_date dt).1) ∧
    utcDay (_parse_parent_date ⟨630, 0⟩).2 = utcDay (_parse_parent_date ⟨690, 0⟩).2 ∧
    (_parse_parent_date ⟨630, 0⟩).2 ≠ (_parse_parent_date ⟨690, 0⟩).2 ∧
    (∀ w o : Int, (_parse_child_email_date w o).2 =
      astimezone (_parse_child_email_date w o).1 0) ∧
    utcDay (_parse_child_email_date 630 0).2 = utcDay (_parse_child_email_date 690 0).2 ∧
    (_parse_child_email_date 630 0).2 ≠ (_parse_child_email_date 690 0).2 := by
  refine ⟨fun dt => rfl, by decide, by decide, fun w o => rfl, by decide, by decide⟩

/-- Claim C1: with the Stage A outcome that child user 7 merged into parent
user 3 and an empty delete list, a group with members 3, 7, 9 and a group
with members 7, 9 both recompute to the member set containing 3 and 9, and
the deduplication pass keeps exactly the first group id and remaps the
second group id to it. -/
theorem C1_stageB_collapse :
    update_user_list ∅ [(7, 3)] [3, 7, 9] = ({3, 9} : Finset Int) ∧
    update_user_list ∅ [(7, 3)] [7, 9] = ({3, 9} : Finset Int) ∧
    dedup_groups
        [(0, update_user_list ∅ [(7, 3)] [3, 7, 9]),
         (1, update_user_list ∅ [(7, 3)] [7, 9])] =
      ([(({3, 9} : Finset Int), 0)], [(1, 0)]) := by
  refine ⟨by decide, by decide, by decide⟩

/-! ## Dictionary lemmas shared by the stateful components -/

/-- Storing a binding changes exactly the stored key. -/
theorem alookup_aset {α β : Type} [DecidableEq α] (m : List (α × β)) (k a : α) (v : β) :
    alookup (aset m k v) a = if a = k then some v else alookup m a := by
  induction m with
  | nil =>
    by_cases h : a = k <;> simp [aset, alookup, h]
  | cons p t ih =>
    obtain ⟨k1, v1⟩ := p
    by_cases hk : k = k1
    · subst hk
      by_cases ha : a = k <;> simp [aset, alookup, ha]
    · by_cases ha : a = k1
      · subst ha
        have hak : ¬a = k := fun hx => hk hx.symm
        simp [aset, alookup, hk, hak]
      · simp [aset, alookup, hk, ha, ih]

/-! ## Message Dedup Cache
Source: src/email_pipeline/pipeline.py, _process_parent_email (lines 51-94)
and _process_child_email (lines 97-121). The md5 digest of the message body
and the timezone resolved from the date field are external inputs here; the
embedding keeps the cache discipline of the source: the parent path returns
the hash together with the cached timezone when the hash is already cached
and otherwise stores the resolved timezone; the child path returns nothing
when the hash is already cached and otherwise stores the parent timezone.
Timezones are identified by their offset. The lock-guarded critical sections
of the source serialize the cache accesses; the embedding is that serialized
behaviour. -/

/-- Result of the parent processing path: either the already-cached signal
carrying the hash and the cached timezone, or a fresh record carrying the
resolved timezone. -/
inductive ParentResult
  | cached (msg_hash : Str) (tz : Int)
  | record (tz : Int)
deriving DecidableEq

/-- Parent path cache discipline of _process_parent_email. -/
def _process_parent_email (message_cache : List (Str × Int)) (msg_hash : Str)
    (date_tz : Int) : ParentResult × List (Str × Int) :=
  match alookup message_cache msg_hash with
  | some tz => (.cached msg_hash tz, message_cache)
  | none => (.record date_tz, aset message_cache msg_hash date_tz)

/-- Child path cache discipline of _process_child_email. -/
def _process_child_email (message_cache : List (Str × Int)) (msg_hash : Str)
    (parent_timezone : Int) : Option Int × List (Str × Int) :=
  match alookup message_cache msg_hash with
  | some _ => (none, message_cache)
  | none => (some parent_timezone, aset message_cache msg_hash parent_timezone)

/-- One processing attempt against the Message Dedup Cache. -/
inductive CacheOp
  | parent (msg_hash : Str) (date_tz : Int)
  | child (msg_hash : Str) (parent_tz : Int)

/-- Cache after one processing attempt. -/
def cacheStep (c : List (Str × Int)) : CacheOp → List (Str × Int)
  | .parent h tz => (_process_parent_email c h tz).2
  | .child h ptz => (_process_child_email c h ptz).2

/-- Cache after a sequence of processing attempts. -/
def runCacheOps (c : List (Str × Int)) (ops : List CacheOp) : List (Str × Int) :=
  ops.foldl cacheStep c

/-- Claim C3: once a timezone is stored under a hash, any later parent
attempt with that hash returns the cached signal with that timezone and any
later child attempt returns nothing, both leaving the cache unchanged; the
entry survives every further sequence of processing attempts unchanged, so
at most one timezone is ever stored under a hash; and a first processing of
an uncached hash stores exactly the timezone it resolved. -/
theorem C3_dedup_cache_sound (c : List (Str × Int)) (h : Str) (tz : Int)
    (hstored : alookup c h = some tz) :
    (∀ tz2, _process_parent_email c h tz2 = (.cached h tz, c)) ∧
    (∀ ptz, _process_child_email c h ptz = (none, c)) ∧
    (∀ ops, alookup (runCacheOps c ops) h = some tz) ∧
    (∀ (c2 : List (Str × Int)) (h2 : Str) (tz2 : Int), alookup c2 h2 = none →
      alookup (_process_parent_email c2 h2 tz2).2 h2 = some tz2 ∧
      alookup (_process_child_email c2 h2 tz2).2 h2 = some tz2) := by
  have hpersist : ∀ (ops : List CacheOp) (c1 : List (Str × Int)),
      alookup c1 h = some tz → alookup (runCacheOps c1 ops) h = some tz := by
    intro ops
    induction ops with
    | nil => intro c1 h1; simpa [runCacheOps] using h1
    | cons op rest ih =>
      intro c1 h1
      have hstep : alookup (cacheStep c1 op) h = some tz := by
        cases op with
        | parent h2 tz2 =>
          cases hl : alookup c1 h2 with
          | some tzc => simp [cacheStep, _process_parent_email, hl, h1]
          | none =>
            have hne : h ≠ h2 := by
              intro he; rw [he, hl] at h1; exact Option.noConfusion h1
            simp [cacheStep, _process_parent_email, hl, alookup_aset, hne, h1]
        | child h2 tz2 =>
          cases hl : alookup c1 h2 with
          | some tzc => simp [cacheStep, _process_child_email, hl, h1]
          | none =>
            have hne : h ≠ h2 := by
              intro he; rw [he, hl] at h1; exact Option.noConfusion h1
            simp [cacheStep, _process_child_email, hl, alookup_aset, hne, h1]
      simpa [runCacheOps] using ih (cacheStep c1 op) hstep
  refine ⟨?_, ?_, fun ops => hpersist ops c hstored, ?_⟩
  · intro tz2; simp [_process_parent_email, hstored]
  · intro ptz; simp [_process_child_email, hstored]
  · intro c2 h2 tz2 hnone
    constructor
    · simp [_process_parent_email, hnone, alookup_aset]
    · simp [_process_child_email, hnone, alookup_aset]

/-- Witness for C3 at a concrete cache holding one entry. -/
theorem C3_dedup_cache_sound_witness :
    alookup [(("abc".data : Str), (-420 : Int))] "abc".data = some (-420) ∧
    (∀ tz2, _process_parent_email [("abc".data, -420)] "abc".data tz2 =
      (.cached "abc".data (-420), [("abc".data, -420)])) := by
  have hc := C3_dedup_cache_sound [("abc".data, -420)] "abc".data (-420) (by decide)
  exact ⟨by decide, hc.1⟩

/-! ## Group Identity Resolver
Source: src/group_pipeline/pipeline.py, get_group_id (lines 25-51). The
input collection is taken as a list so that the dependence on element order
and on the originating collection can be stated; the source immediately
filters it into a frozenset. -/

/-- Frozenset built by get_group_id: the input members with the sentinel -1
removed. -/
def filteredUsers (users : List Int) : Finset Int :=
  (users.filter (fun u => u ≠ -1)).toFinset

/-- State of the group pipeline: the set-to-id cache and the monotonic
counter. -/
structure GroupPipeline where
  group_cache : List (Finset Int × Int)
  counter : Int
deriving DecidableEq

/-- Initial group pipeline state. -/
def groupPipelineInit : GroupPipeline := ⟨[], 0⟩

/-- Resolve a group id: the sentinel -1 is filtered out of the member set;
an empty filtered set yields -1; a cached set yields its cached id; a fresh
set is assigned the next counter value and cached. -/
def get_group_id (st : GroupPipeline) (users : List Int) : Int × GroupPipeline :=
  if filteredUsers users = ∅ then (-1, st)
  else
    match alookup st.group_cache (filteredUsers users) with
    | some i => (i, st)
    | none =>
      (st.counter, ⟨aset st.group_cache (filteredUsers users) st.counter, st.counter + 1⟩)

/-- Group pipeline state after a sequence of get_group_id calls starting from
the initial state. -/
def runGroupOps (opsList : List (List Int)) : GroupPipeline :=
  opsList.foldl (fun st users => (get_group_id st users).2) groupPipelineInit

/-- Invariant of the group pipeline: cached ids are non-negative and below
the counter, and no id is shared by two distinct member sets. -/
def GroupInv (st : GroupPipeline) : Prop :=
  0 ≤ st.counter ∧
  (∀ (u : Finset Int) (i : Int), alookup st.group_cache u = some i → 0 ≤ i ∧ i < st.counter) ∧
  (∀ (u1 u2 : Finset Int) (i : Int),
    alookup st.group_cache u1 = some i → alookup st.group_cache u2 = some i → u1 = u2)

/-- The invariant is preserved by every call. -/
theorem groupInv_step (st : GroupPipeline) (users : List Int) (hinv : GroupInv st) :
    GroupInv (get_group_id st users).2 := by
  obtain ⟨hc, hb, hinj⟩ := hinv
  by_cases he : filteredUsers users = ∅
  · simpa [get_group_id, he] using ⟨hc, hb, hinj⟩
  · cases hl : alookup st.group_cache (filteredUsers users) with
    | some i => simpa [get_group_id, he, hl] using ⟨hc, hb, hinj⟩
    | none =>
      refine ⟨by simp [get_group_id, he, hl]; omega, ?_, ?_⟩
      · intro u i h
        simp [get_group_id, he, hl] at h ⊢
        rw [alookup_aset] at h
        by_cases hu : u = filteredUsers users
        · rw [if_pos hu] at h
          cases h
          omega
        · rw [if_neg hu] at h
          have := hb u i h
          omega
      · intro u1 u2 i h1 h2
        simp [get_group_id, he, hl] at h1 h2
        rw [alookup_aset] at h1 h2
        by_cases hu1 : u1 = filteredUsers users <;>
          by_cases hu2 : u2 = filteredUsers users
        · rw [hu1, hu2]
        · rw [if_pos hu1] at h1
          rw [if_neg hu2] at h2
          cases h1
          have := hb u2 st.counter h2
          omega
        · rw [if_neg hu1] at h1
          rw [if_pos hu2] at h2
          cases h2
          have := hb u1 st.counter h1
          omega
        · rw [if_neg hu1] at h1
          rw [if_neg hu2] at h2
          exact hinj u1 u2 i h1 h2

/-- Every reachable group pipeline state satisfies the invariant. -/
theorem groupInv_run (opsList : List (List Int)) : GroupInv (runGroupOps opsList) := by
  have hgen : ∀ (ops : List (List Int)) (st : GroupPipeline), GroupInv st →
      GroupInv (ops.foldl (fun st1 users => (get_group_id st1 users).2) st) := by
    intro ops
    induction ops with
    | nil => intro st h; simpa using h
    | cons op rest ih =>
      intro st h
      simpa using ih _ (groupInv_step st op h)
  exact hgen opsList groupPipelineInit ⟨by simp [groupPipelineInit], by simp [groupPipelineInit, alookup], by simp [groupPipelineInit, alookup]⟩

/-- Claim C4: at every reachable state, the group id returned by get_group_id
depends only on the filtered member set (element order and the originating
collection are irrelevant), both for two calls on the same state and for a
call following the first one; the id is -1 exactly when the filtered set is
empty; existing cache bindings are never changed by a call; and no id is
shared by two distinct member sets. -/
theorem C4_group_id_pure (opsList : List (List Int)) (st : GroupPipeline)
    (hst : st = runGroupOps opsList) :
    (∀ l1 l2 : List Int, filteredUsers l1 = filteredUsers l2 →
      (get_group_id st l1).1 = (get_group_id st l2).1 ∧
      (get_group_id (get_group_id st l1).2 l2).1 = (get_group_id st l1).1) ∧
    (∀ l : List Int, ((get_group_id st l).1 = -1 ↔ filteredUsers l = ∅)) ∧
    (∀ (l : List Int) (u : Finset Int) (i : Int),
      alookup st.group_cache u = some i →
      alookup ((get_group_id st l).2).group_cache u = some i) ∧
    (∀ (u1 u2 : Finset Int) (i : Int),
      alookup st.group_cache u1 = some i → alookup st.group_cache u2 = some i →
      u1 = u2) := by
  have hinv : GroupInv st := hst ▸ groupInv_run opsList
  obtain ⟨hc, hb, hinj⟩ := hinv
  refine ⟨?_, ?_, ?_, hinj⟩
  · intro l1 l2 heq
    by_cases he : filteredUsers l1 = ∅
    · have he2 : filteredUsers l2 = ∅ := heq ▸ he
      constructor
      · simp [get_group_id, he, he2]
      · simp [get_group_id, he, he2]
    · have he2 : ¬filteredUsers l2 = ∅ := heq ▸ he
      cases hl : alookup st.group_cache (filteredUsers l1) with
      | some i =>
        have hl2 : alookup st.group_cache (filteredUsers l2) = some i := heq ▸ hl
        constructor
        · simp [get_group_id, he, he2, hl, hl2]
        · simp [get_group_id, he, he2, hl, hl2]
      | none =>
        have hl2 : alookup st.group_cache (filteredUsers l2) = none := heq ▸ hl
        constructor
        · simp [get_group_id, he, he2, hl, hl2]
        · simp [get_group_id, he, he2, hl, hl2, alookup_aset, heq]
  · intro l
    by_cases he : filteredUsers l = ∅
    · simp [get_group_id, he]
    · cases hl : alookup st.group_cache (filteredUsers l) with
      | some i =>
        have := hb (filteredUsers l) i hl
        simp [get_group_id, he, hl]
        omega
      | none =>
        simp [get_group_id, he, hl]
        omega
  · intro l u i h
    by_cases he : filteredUsers l = ∅
    · simpa [get_group_id, he] using h
    · cases hl : alookup st.group_cache (filteredUsers l) with
      | some j => simpa [get_group_id, he, hl] using h
      | none =>
        have hne : u ≠ filteredUsers l := by
          intro heq2; rw [heq2, hl] at h; exact Option.noConfusion h
        simp [get_group_id, he, hl, alookup_aset, hne, h]

/-- Witness for C4 at the state reached by one concrete call. -/
theorem C4_group_id_pure_witness :
    (get_group_id (runGroupOps [[3, 7, -1]]) [7, 3]).1 =
      (get_group_id (runGroupOps [[3, 7, -1]]) [3, 7, 3]).1 ∧
    ((get_group_id (runGroupOps [[3, 7, -1]]) [-1]).1 = -1 ↔
      filteredUsers [-1] = ∅) := by
  have h := C4_group_id_pure [[3, 7, -1]] (runGroupOps [[3, 7, -1]]) rfl
  exact ⟨(h.1 [7, 3] [3, 7, 3] (by decide)).1, h.2.1 [-1]⟩

/-! ## User Identity Resolver
Source: src/user_pipeline/pipeline.py and src/user_pipeline/_helpers.py.
Python sets are modelled as duplicate-free lists; where the source iterates
over a set in the unspecified CPython iteration order, the embedding takes
the corresponding list order, so the order dependence of the source is
explicit in the input. The regular expressions of _parse_alias are embedded
as character-level functions; the character class of the backslash-w escape
is modelled over its ASCII range (letters, digits, underscore). -/

/-- Scan forward to the first closing angle bracket, returning the remainder
after it. -/
def scanClose : Str → Option Str
  | [] => none
  | c :: rest => if c = '>' then some rest else scanClose rest

/-- Match the regex fragment of one or more non-closing characters followed
by a closing angle bracket, returning the remainder. -/
def afterAngle : Str → Option Str
  | [] => none
  | c :: rest => if c = '>' then none else scanClose rest

/-- Fueled worker for removeAngleL; fuel equal to the string length is
always sufficient. -/
def removeAngleFuel : Nat → Str → Str
  | 0, s => s
  | _ + 1, [] => []
  | fuel + 1, c :: rest =>
    if c = '<' then
      match afterAngle rest with
      | some rem => removeAngleFuel fuel rem
      | none => c :: removeAngleFuel fuel rest
    else c :: removeAngleFuel fuel rest

/-- Delete every angle-bracket group, modelling re.sub of the pattern
made of an opening bracket, one or more non-closing characters and a closing
bracket, replaced by the empty string. -/
def removeAngleL (s : Str) : Str := removeAngleFuel s.length s

/-- Character class of the backslash-w escape (ASCII range). -/
def isWordChar (c : Char) : Bool := c.isAlpha || c.isDigit || c == '_'

/-- Character class of word characters and the dot. -/
def isWordOrDot (c : Char) : Bool := isWordChar c || c == '.'

/-- Name components extracted from one alias by _parse_alias. -/
structure ParsedName where
  first_name : Str
  initial : Str
  last_name : Str
deriving DecidableEq, Repr

/-- Email branch of _parse_alias: the whole alias must be a word-or-dot local
part, an at sign and a word-or-dot domain; the domain must be enron.com and
the local part must not contain two consecutive dots; one inner dot splits
the local part into first and last name, two inner dots into first name, a
single-character middle initial and last name. -/
def emailParse (aliasS : Str) : Option ParsedName :=
  match splitChar '@' aliasS with
  | [name_part, domain_part] =>
    if name_part ≠ [] ∧ domain_part ≠ [] ∧
        name_part.all isWordOrDot ∧ domain_part.all isWordOrDot then
      if domain_part = "enron.com".data ∧ containsSub "..".data name_part = false then
        if name_part.count '.' = 1 then
          match splitChar '.' name_part with
          | [a, b] => if a ≠ [] ∧ b ≠ [] then some ⟨a, [], b⟩ else none
          | _ => none
        else if name_part.count '.' = 2 then
          match splitChar '.' name_part with
          | [a, b, c] => if a ≠ [] ∧ b.length = 1 ∧ c ≠ [] then some ⟨a, b, c⟩ else none
          | _ => none
        else none
      else none
    else none
  | _ => none

/-- Free-text branch of _parse_alias: after deleting angle-bracket groups,
the alias must split on a comma-space into a last-name part and a first-name
part, both non-blank; the first-name part splits on spaces into the first
name and an optional initial; every component is then stripped of non-letter
characters and both the first and the last name must remain non-empty. -/
def nameParse (alias0 : Str) : Option ParsedName :=
  let aliasS := removeAngleL alias0
  match splitOnL ", ".data aliasS with
  | [last_name0, first_name_part] =>
    if trimL last_name0 = [] ∨ trimL first_name_part = [] then none
    else
      let first_name_spaces := splitChar ' ' first_name_part
      let first_name1 := trimL (first_name_spaces.headD [])
      let initial1 :=
        if first_name_spaces.length > 1 then trimL ((first_name_spaces[1]?).getD [])
        else []
      let last_name := last_name0.filter Char.isAlpha
      let first_name := first_name1.filter Char.isAlpha
      let initial := initial1.filter Char.isAlpha
      if first_name ≠ [] ∧ last_name ≠ [] then
        some ⟨first_name, initial, last_name⟩
      else none
  | _ => none

/-- Parse one alias into name components: the email grammar is tried first
and the free-text grammar second; the result is none where the source
returns an empty dictionary or a dictionary without both names. -/
def _parse_alias (aliasS : Str) : Option ParsedName :=
  match emailParse aliasS with
  | some p => some p
  | none => nameParse aliasS

/-- Generate the fixed enron alias patterns from a name: first.last and
first-initial+last always, plus first.initial.last and initial..last when an
initial is present. Returned as a duplicate-free list modelling the set the
source builds. -/
def _generate_aliases (first_name last_name initial : Str) : List Str :=
  if first_name = [] ∨ last_name = [] then []
  else
    let dom := "@enron.com".data
    let a1 := first_name ++ ['.'] ++ last_name ++ dom
    let a2 := first_name.take 1 ++ last_name ++ dom
    if initial = [] then ([a1, a2]).dedup
    else
      ([a1, a2,
        first_name ++ ['.'] ++ initial ++ ['.'] ++ last_name ++ dom,
        initial ++ ['.', '.'] ++ last_name ++ dom]).dedup

/-- Stored person profile. Source: src/data_object/user_profile.py. -/
structure UserProfile where
  id : Int
  first_name : Str
  last_name : Str
  generated_aliases : List Str
  aliases : List Str
deriving DecidableEq, Repr

/-- State of the user pipeline: the profile table, the alias lookup table
and the monotonic id counter. -/
structure UserPipeline where
  users : List (Int × UserProfile)
  alias_lookup : List (Str × Int)
  counter : Int
deriving DecidableEq, Repr

/-- Initial user pipeline state. -/
def userPipelineInit : UserPipeline := ⟨[], [], 0⟩

/-- Cleaning performed at the head of get_user_id_from_set: drop falsy
entries, lowercase and strip each alias, and collect the results as a set. -/
def cleanAliases (aliases : List Str) : List Str :=
  ((aliases.filter (fun a => a ≠ [])).map (fun a => trimL (lowerL a))).dedup

/-- Create a new user profile from the cleaned aliases and the parsed name
components, register every alias, and return the fresh id with the new
state. Source: _create_user, lines 109-135. -/
def _create_user (st : UserPipeline) (aliases : List Str)
    (parsed_info : Option ParsedName) : Int × UserPipeline :=
  let user_id := st.counter
  let first_name := lowerL ((parsed_info.map (fun p => p.first_name)).getD [])
  let last_name := lowerL ((parsed_info.map (fun p => p.last_name)).getD [])
  let initial := lowerL ((parsed_info.map (fun p => p.initial)).getD [])
  let generated_aliases :=
    if first_name ≠ [] ∧ last_name ≠ [] then
      _generate_aliases first_name last_name initial
    else []
  let all_aliases := sunion aliases generated_aliases
  let profile : UserProfile :=
    ⟨user_id, first_name, last_name, generated_aliases, all_aliases⟩
  let users1 := aset st.users user_id profile
  let lookup1 := all_aliases.foldl (fun m a => aset m a user_id) st.alias_lookup
  (user_id, ⟨users1, lookup1, st.counter + 1⟩)

/-- Update an existing profile: enrich the name when it was empty and a name
was parsed (regenerating canonical aliases), union the new aliases in,
register every alias of the profile that is not yet in the lookup table, and
unconditionally register every generated alias. Source: _update_user, lines
137-159. -/
def _update_user (st : UserPipeline) (user_id : Int) (new_aliases : List Str)
    (parsed_info : Option ParsedName) : UserPipeline :=
  match alookup st.users user_id with
  | none => st
  | some profile =>
    let profile1 :=
      match parsed_info with
      | some p =>
        if profile.first_name = [] ∧ p.first_name ≠ [] then
          { profile with
            first_name := p.first_name
            last_name := p.last_name
            generated_aliases :=
              sunion profile.generated_aliases
                (_generate_aliases p.first_name p.last_name p.initial) }
        else profile
      | none => profile
    let all_aliases := sunion profile1.aliases new_aliases
    let profile2 := { profile1 with aliases := all_aliases }
    let lookup1 := all_aliases.foldl
      (fun m a => if (alookup m a).isSome then m else aset m a user_id)
      st.alias_lookup
    let lookup2 :=
      if profile2.generated_aliases ≠ [] then
        profile2.generated_aliases.foldl (fun m a => aset m a user_id) lookup1
      else lookup1
    ⟨aset st.users user_id profile2, lookup2, st.counter⟩

/-- Resolve a set of co-occurring aliases. Source: get_user_id_from_set,
lines 30-65. The choice the source leaves to set iteration order (matched
pop and the parse loop order) is the head of the corresponding list here. -/
def get_user_id_from_set (st : UserPipeline) (aliases : List Str) :
    Except String (Int × UserPipeline) :=
  let cleaned_aliases := cleanAliases aliases
  if cleaned_aliases = [] then .error "Cannot reconcile an empty set of aliases."
  else
    let matched := (cleaned_aliases.filterMap (alookup st.alias_lookup)).dedup
    match matched.find? (fun id1 =>
        match alookup st.users id1 with
        | some p => p.generated_aliases.length == 4
        | none => false) with
    | some id1 => .ok (id1, st)
    | none =>
      let best_parsed_info := cleaned_aliases.findSome? _parse_alias
      match matched with
      | [] => .ok (_create_user st cleaned_aliases best_parsed_info)
      | id1 :: _ => .ok (id1, _update_user st id1 cleaned_aliases best_parsed_info)

/-- Resolve a single alias. Source: get_user_id, lines 13-27. -/
def get_user_id (st : UserPipeline) (aliasS : Str) :
    Except String (Int × UserPipeline) :=
  if aliasS = [] ∨ trimL aliasS = [] then .error "Alias cannot be blank."
  else
    let alias1 := trimL (lowerL aliasS)
    match alookup st.alias_lookup alias1 with
    | some id1 => .ok (id1, st)
    | none => get_user_id_from_set st [alias1]

/-- One call of the public resolver interface. -/
inductive UserOp
  | single (aliasS : Str)
  | fromSet (aliases : List Str)

/-- State after one resolver call; a rejected call leaves the state
unchanged, matching the exception propagating to the caller. -/
def applyUserOp (st : UserPipeline) : UserOp → UserPipeline
  | .single a =>
    match get_user_id st a with
    | .ok r => r.2
    | .error _ => st
  | .fromSet l =>
    match get_user_id_from_set st l with
    | .ok r => r.2
    | .error _ => st

/-- State after a sequence of resolver calls from the initial state. -/
def runUserOps (ops : List UserOp) : UserPipeline :=
  ops.foldl applyUserOp userPipelineInit

/-! ## Claim theorems for the User Identity Resolver: invalid input,
end-to-end resolution, and the alias-lookup invariant -/

/-- Alias-lookup invariant as claimed: every alias of every stored profile
resolves back to that profile's identifier in the alias lookup table. -/
def aliasLookupInvClaim (st : UserPipeline) : Prop :=
  ∀ pr ∈ st.users, ∀ a ∈ pr.2.aliases, alookup st.alias_lookup a = some pr.1

/-- Claim C9: a blank alias is rejected by get_user_id with the invalid-input
error, a set that cleans to nothing is rejected by get_user_id_from_set with
the invalid-input error, and in both cases the rejected call leaves the state
unchanged, so no profile is created or modified. -/
theorem C9_invalid_input (st : UserPipeline) (blank : Str) (aliases : List Str)
    (h1 : blank = [] ∨ trimL blank = [])
    (h2 : cleanAliases aliases = []) :
    get_user_id st blank = .error "Alias cannot be blank." ∧
    get_user_id_from_set st aliases =
      .error "Cannot reconcile an empty set of aliases." ∧
    applyUserOp st (.single blank) = st ∧
    applyUserOp st (.fromSet aliases) = st := by
  have hg1 : get_user_id st blank = .error "Alias cannot be blank." := by
    unfold get_user_id
    rw [if_pos h1]
  have hg2 : get_user_id_from_set st aliases =
      .error "Cannot reconcile an empty set of aliases." := by
    unfold get_user_id_from_set
    simp [h2]
  refine ⟨hg1, hg2, ?_, ?_⟩
  · simp [applyUserOp, hg1]
  · simp [applyUserOp, hg2]

/-- Witness for C9 at a whitespace alias and a set containing only empty
strings. -/
theorem C9_invalid_input_witness :
    get_user_id userPipelineInit " ".data = .error "Alias cannot be blank." ∧
    get_user_id_from_set userPipelineInit [[]] =
      .error "Cannot reconcile an empty set of aliases." ∧
    applyUserOp userPipelineInit (.single " ".data) = userPipelineInit ∧
    applyUserOp userPipelineInit (.fromSet [[]]) = userPipelineInit :=
  C9_invalid_input userPipelineInit " ".data [[]] (by decide) (by decide)

/-- Claim C7 counterexample: when the resolver examines the email alias
before the free-text alias (one of the two possible set iteration orders of
the source), the resulting profile has first name j rather than john, and
the generated alias john.doe at enron.com is nowhere in the alias set, so
the claimed outcome fails for this order. -/
theorem C7_order_cex :
    (alookup (runUserOps
        [.fromSet ["j.doe@enron.com".data, "Doe, John".data]]).users 0).map
      (fun p => p.first_name) = some "j".data ∧
    (∀ pr ∈ (runUserOps
        [.fromSet ["j.doe@enron.com".data, "Doe, John".data]]).users,
      "john.doe@enron.com".data ∉ pr.2.aliases) := by
  decide

/-- Claim C7 as amended: with the free-text alias examined first, the two
aliases resolve to the single person id 0, whose profile has first name john
and last name doe, and whose generated aliases and alias set both contain
john.doe at enron.com and jdoe at enron.com. -/
theorem C7_resolution_amended :
    (runUserOps [.fromSet ["Doe, John".data, "j.doe@enron.com".data]]).users.length = 1 ∧
    alookup (runUserOps [.fromSet ["Doe, John".data, "j.doe@enron.com".data]]).alias_lookup
      "doe, john".data = some 0 ∧
    alookup (runUserOps [.fromSet ["Doe, John".data, "j.doe@enron.com".data]]).alias_lookup
      "j.doe@enron.com".data = some 0 ∧
    (alookup (runUserOps [.fromSet ["Doe, John".data, "j.doe@enron.com".data]]).users 0).map
      (fun p => p.first_name) = some "john".data ∧
    (alookup (runUserOps [.fromSet ["Doe, John".data, "j.doe@enron.com".data]]).users 0).map
      (fun p => p.last_name) = some "doe".data ∧
    (alookup (runUserOps [.fromSet ["Doe, John".data, "j.doe@enron.com".data]]).users 0).map
      (fun p => decide ("john.doe@enron.com".data ∈ p.generated_aliases)) = some true ∧
    (alookup (runUserOps [.fromSet ["Doe, John".data, "j.doe@enron.com".data]]).users 0).map
      (fun p => decide ("jdoe@enron.com".data ∈ p.generated_aliases)) = some true ∧
    (alookup (runUserOps [.fromSet ["Doe, John".data, "j.doe@enron.com".data]]).users 0).map
      (fun p => decide ("john.doe@enron.com".data ∈ p.aliases)) = some true ∧
    (alookup (runUserOps [.fromSet ["Doe, John".data, "j.doe@enron.com".data]]).users 0).map
      (fun p => decide ("jdoe@enron.com".data ∈ p.aliases)) = some true := by
  decide

/-- Claim C5 counterexample: after resolving bob.smith at enron.com (which
creates profile 0 owning that alias) and then smith, bob (which creates
profile 1 and re-registers its generated alias bob.smith at enron.com to
id 1), profile 0 still lists that alias while the lookup table maps it to 1,
so the claimed invariant fails at this reachable state. -/
theorem C5_alias_invariant_cex :
    ¬aliasLookupInvClaim (runUserOps
      [.fromSet ["bob.smith@enron.com".data], .fromSet ["smith, bob".data]]) := by
  unfold aliasLookupInvClaim
  decide

/-! ## Helper lemmas for the resolver invariants -/

/-- Lowercasing never produces a dot from a non-dot character. -/
theorem lowerChar_eq_dot {c : Char} (h : lowerChar c = '.') : c = '.' := by
  unfold lowerChar at h
  split at h
  · rename_i hc
    have hv : (Char.ofNat (c.toNat + 32)).toNat = c.toNat + 32 := by
      rw [Char.ofNat, dif_pos]
      · rfl
      · left; omega
    have h2 := congrArg Char.toNat h
    rw [hv] at h2
    have hdot : ('.' : Char).toNat = 46 := by decide
    rw [hdot] at h2
    omega
  · exact h

/-- Lowercasing preserves dot-freeness. -/
theorem lowerL_not_dot {s : Str} (h : '.' ∉ s) : '.' ∉ lowerL s := by
  intro hmem
  unfold lowerL at hmem
  obtain ⟨c, hc, hlc⟩ := List.mem_map.mp hmem
  exact h (lowerChar_eq_dot hlc ▸ hc)

/-- Lowercasing preserves non-emptiness. -/
theorem lowerL_ne_nil {s : Str} (h : s ≠ []) : lowerL s ≠ [] := by
  unfold lowerL
  simpa using h

/-- No piece produced by a single-character split contains the separator. -/
theorem splitChar_not_mem (c : Char) (s : Str) :
    ∀ piece ∈ splitChar c s, c ∉ piece := by
  induction s with
  | nil =>
    intro piece hp
    simp [splitChar] at hp
    subst hp
    simp
  | cons x t ih =>
    intro piece hp
    by_cases hx : x = c
    · simp [splitChar, hx] at hp
      rcases hp with hp | hp
      · subst hp; simp
      · exact ih piece hp
    · simp only [splitChar, if_neg hx] at hp
      cases hsp : splitChar c t with
      | nil =>
        rw [hsp] at hp
        simp at hp
        subst hp
        simp
        exact fun he => hx he.symm
      | cons h0 r =>
        rw [hsp] at hp
        simp at hp
        rcases hp with hp | hp
        · subst hp
          intro hmem
          simp at hmem
          rcases hmem with hc | hc
          · exact hx hc.symm
          · exact ih h0 (by rw [hsp]; simp) hc
        · exact ih piece (by rw [hsp]; simp [hp])

/-- The components found by findSome? come from an element of the list. -/
theorem findSome_exists {α β : Type} (l : List α) (f : α → Option β) (b : β)
    (h : l.findSome? f = some b) : ∃ a ∈ l, f a = some b := by
  induction l with
  | nil => simp [List.findSome?] at h
  | cons x t ih =>
    rw [List.findSome?_cons] at h
    cases hx : f x with
    | some v =>
      rw [hx] at h
      simp at h
      exact ⟨x, by simp, by rw [hx, h]⟩
    | none =>
      rw [hx] at h
      obtain ⟨a, ha, hfa⟩ := ih h
      exact ⟨a, by simp [ha], hfa⟩

/-- Well-formedness of parsed name components: both names are non-empty and
neither the first name nor the initial contains a dot. -/
def ParsedWF (parsed : Option ParsedName) : Prop :=
  ∀ p, parsed = some p →
    p.first_name ≠ [] ∧ p.last_name ≠ [] ∧
    '.' ∉ p.first_name ∧ '.' ∉ p.initial

/-- The email grammar only returns well-formed components. -/
theorem emailParse_wf (a : Str) : ParsedWF (emailParse a) := by
  intro p hp
  unfold emailParse at hp
  split at hp
  · rename_i np dp heqsp
    split at hp
    · split at hp
      · split at hp
        · split at hp
          · rename_i u v heqsd
            split at hp
            · rename_i hcond
              cases hp
              refine ⟨hcond.1, hcond.2, ?_, by simp⟩
              exact splitChar_not_mem '.' np u (by rw [heqsd]; simp)
            · exact Option.noConfusion hp
          · exact Option.noConfusion hp
        · split at hp
          · split at hp
            · rename_i u v w heqsd
              split at hp
              · rename_i hcond
                cases hp
                refine ⟨hcond.1, hcond.2.2, ?_, ?_⟩
                · exact splitChar_not_mem '.' np u (by rw [heqsd]; simp)
                · exact splitChar_not_mem '.' np v (by rw [heqsd]; simp)
              · exact Option.noConfusion hp
            · exact Option.noConfusion hp
          · exact Option.noConfusion hp
      · exact Option.noConfusion hp
    · exact Option.noConfusion hp
  · exact Option.noConfusion hp

/-- The free-text grammar only returns well-formed components. -/
theorem nameParse_wf (a : Str) : ParsedWF (nameParse a) := by
  intro p hp
  unfold nameParse at hp
  dsimp only at hp
  split at hp
  · rename_i last0 firstPart heqsp
    split at hp
    · exact Option.noConfusion hp
    · split at hp
      · rename_i hcond
        cases hp
        refine ⟨hcond.1, hcond.2, ?_, ?_⟩
        · intro hmem
          exact absurd ((List.mem_filter.mp hmem).2) (by decide)
        · intro hmem
          exact absurd ((List.mem_filter.mp hmem).2) (by decide)
      · exact Option.noConfusion hp
  · exact Option.noConfusion hp

/-- The combined alias grammar only returns well-formed components. -/
theorem parse_alias_wf (a : Str) : ParsedWF (_parse_alias a) := by
  intro p hp
  unfold _parse_alias at hp
  cases he : emailParse a with
  | some q => rw [he] at hp; cases hp; exact emailParse_wf a p he
  | none => rw [he] at hp; exact nameParse_wf a p hp

/-- The best parse chosen over a list of aliases is well-formed. -/
theorem findSome_parse_wf (l : List Str) : ParsedWF (l.findSome? _parse_alias) := by
  intro p hp
  obtain ⟨a, _, hpa⟩ := findSome_exists l _parse_alias p hp
  exact parse_alias_wf a p hpa

/-- Generated alias sets never contain duplicates. -/
theorem generate_aliases_nodup (f l i : Str) : (_generate_aliases f l i).Nodup := by
  unfold _generate_aliases
  split
  · exact List.nodup_nil
  · split
    · exact List.nodup_dedup _
    · exact List.nodup_dedup _

/-- Number of dots in the fixed domain suffix. -/
theorem count_dot_dom : List.count '.' "@enron.com".data = 1 := by decide

/-- Cardinality of the generated alias set: under the well-formedness of the
parsed components, exactly two aliases are generated without an initial and
exactly four with one, because the four patterns are pairwise distinct. -/
theorem generate_aliases_length (f l i : Str) (hf : f ≠ []) (hl : l ≠ [])
    (hdf : '.' ∉ f) (hdi : '.' ∉ i) :
    (_generate_aliases f l i).length = if i = [] then 2 else 4 := by
  have hfl : 0 < f.length := List.length_pos.mpr hf
  have hcf : List.count '.' f = 0 := List.count_eq_zero.mpr hdf
  have hci : List.count '.' i = 0 := List.count_eq_zero.mpr hdi
  have hcf1 : List.count '.' (f.take 1) = 0 := by
    refine List.count_eq_zero.mpr ?_
    intro hmem
    exact hdf (List.mem_of_mem_take hmem)
  have h12 : f ++ ['.'] ++ l ++ "@enron.com".data ≠
      f.take 1 ++ l ++ "@enron.com".data := by
    intro h
    have h2 := congrArg (List.count '.') h
    simp [List.count_append, hcf, hcf1, count_dot_dom] at h2
  unfold _generate_aliases
  rw [if_neg (by push_neg; exact ⟨hf, hl⟩)]
  by_cases hi : i = []
  · rw [if_pos hi]
    have hnd : ([f ++ ['.'] ++ l ++ "@enron.com".data,
        f.take 1 ++ l ++ "@enron.com".data] : List Str).Nodup :=
      List.nodup_cons.mpr ⟨fun hmem => h12 (List.mem_singleton.mp hmem),
        List.nodup_singleton _⟩
    rw [List.dedup_eq_self.mpr hnd]
    simp [hi]
  · have hil : 0 < i.length := List.length_pos.mpr hi
    have h13 : f ++ ['.'] ++ l ++ "@enron.com".data ≠
        f ++ ['.'] ++ i ++ ['.'] ++ l ++ "@enron.com".data := by
      intro h
      have h2 := congrArg List.length h
      simp [List.length_append] at h2
      omega
    have h14 : f ++ ['.'] ++ l ++ "@enron.com".data ≠
        i ++ ['.', '.'] ++ l ++ "@enron.com".data := by
      intro h
      have h2 := congrArg (List.count '.') h
      simp [List.count_append, hcf, hci, count_dot_dom] at h2
    have h23 : f.take 1 ++ l ++ "@enron.com".data ≠
        f ++ ['.'] ++ i ++ ['.'] ++ l ++ "@enron.com".data := by
      intro h
      have h2 := congrArg (List.count '.') h
      simp [List.count_append, hcf, hcf1, hci, count_dot_dom] at h2
    have h24 : f.take 1 ++ l ++ "@enron.com".data ≠
        i ++ ['.', '.'] ++ l ++ "@enron.com".data := by
      intro h
      have h2 := congrArg (List.count '.') h
      simp [List.count_append, hcf1, hci, count_dot_dom] at h2
    have h34 : f ++ ['.'] ++ i ++ ['.'] ++ l ++ "@enron.com".data ≠
        i ++ ['.', '.'] ++ l ++ "@enron.com".data := by
      intro h
      have h2 := congrArg List.length h
      simp [List.length_append] at h2
      omega
    rw [if_neg hi]
    have hnd : ([f ++ ['.'] ++ l ++ "@enron.com".data,
        f.take 1 ++ l ++ "@enron.com".data,
        f ++ ['.'] ++ i ++ ['.'] ++ l ++ "@enron.com".data,
        i ++ ['.', '.'] ++ l ++ "@enron.com".data] : List Str).Nodup := by
      refine List.nodup_cons.mpr ⟨?_, List.nodup_cons.mpr ⟨?_,
        List.nodup_cons.mpr ⟨?_, List.nodup_singleton _⟩⟩⟩
      · intro hmem
        rcases List.mem_cons.mp hmem with h | hmem2
        · exact h12 h
        rcases List.mem_cons.mp hmem2 with h | hmem3
        · exact h13 h
        · exact h14 (List.mem_singleton.mp hmem3)
      · intro hmem
        rcases List.mem_cons.mp hmem with h | hmem2
        · exact h23 h
        · exact h24 (List.mem_singleton.mp hmem2)
      · intro hmem
        exact h34 (List.mem_singleton.mp hmem)
    rw [List.dedup_eq_self.mpr hnd]
    simp [hi]

/-- Registering a list of aliases with overwrite: a registered key maps to
the registered id, any other key keeps its old binding. -/
theorem alookup_regAll {β : Type} [DecidableEq β] (l : List β)
    (m0 : List (β × Int)) (i : Int) (x : β) :
    alookup (l.foldl (fun m a => aset m a i) m0) x =
      if x ∈ l then some i else alookup m0 x := by
  induction l generalizing m0 with
  | nil => simp
  | cons b t ih =>
    simp only [List.foldl_cons]
    rw [ih]
    by_cases hxt : x ∈ t
    · simp [hxt]
    · by_cases hxb : x = b
      · simp [hxt, hxb, alookup_aset]
      · simp [hxt, hxb, alookup_aset]

/-- Registering a list of aliases without overwrite: an existing binding is
kept, a fresh registered key maps to the id, any other key stays absent. -/
theorem alookup_regIfAbsent {β : Type} [DecidableEq β] (l : List β)
    (m0 : List (β × Int)) (i : Int) (x : β) :
    alookup (l.foldl
        (fun m a => if (alookup m a).isSome then m else aset m a i) m0) x =
      if (alookup m0 x).isSome then alookup m0 x
      else if x ∈ l then some i else none := by
  induction l generalizing m0 with
  | nil =>
    by_cases h : (alookup m0 x).isSome
    · simp [h]
    · simp [h]
      exact Option.not_isSome_iff_eq_none.mp h
  | cons b t ih =>
    simp only [List.foldl_cons]
    by_cases hb : (alookup m0 b).isSome
    · rw [if_pos hb, ih]
      by_cases hxb : x = b
      · subst hxb
        simp [hb]
      · simp [List.mem_cons, hxb]
    · rw [if_neg hb, ih]
      by_cases hxb : x = b
      · subst hxb
        have hm0 : alookup m0 x = none := Option.not_isSome_iff_eq_none.mp hb
        simp [alookup_aset, hm0]
      · rw [alookup_aset, if_neg hxb]
        simp [List.mem_cons, hxb]

/-- Keys after a store: the stored key joins the key set. -/
theorem mem_keys_aset {α β : Type} [DecidableEq α] (m : List (α × β)) (k : α)
    (v : β) (x : α) :
    x ∈ (aset m k v).map Prod.fst ↔ x ∈ m.map Prod.fst ∨ x = k := by
  induction m with
  | nil => simp [aset]
  | cons p t ih =>
    obtain ⟨k1, v1⟩ := p
    by_cases hk : k = k1
    · subst hk
      simp [aset]
      tauto
    · simp [aset, hk, ih]
      tauto

/-- A store preserves duplicate-freeness of the key set. -/
theorem nodup_keys_aset {α β : Type} [DecidableEq α] (m : List (α × β)) (k : α)
    (v : β) (h : (m.map Prod.fst).Nodup) : ((aset m k v).map Prod.fst).Nodup := by
  induction m with
  | nil => simp [aset]
  | cons p t ih =>
    obtain ⟨k1, v1⟩ := p
    rw [List.map_cons] at h
    have h1 := (List.nodup_cons.mp h).1
    have h2 := (List.nodup_cons.mp h).2
    by_cases hk : k = k1
    · subst hk
      have hset : aset ((k, v1) :: t) k v = (k, v) :: t := by simp [aset]
      rw [hset, List.map_cons]
      exact List.nodup_cons.mpr ⟨h1, h2⟩
    · have hset : aset ((k1, v1) :: t) k v = (k1, v1) :: aset t k v := by
        simp [aset, hk]
      rw [hset, List.map_cons]
      refine List.nodup_cons.mpr ⟨?_, ih h2⟩
      intro hmem
      rcases (mem_keys_aset t k v k1).mp hmem with hold | heq
      · exact h1 hold
      · exact hk heq.symm

/-- With duplicate-free keys, a table entry is found by lookup. -/
theorem alookup_of_mem {α β : Type} [DecidableEq α] (m : List (α × β))
    (pr : α × β) (hnd : (m.map Prod.fst).Nodup) (hm : pr ∈ m) :
    alookup m pr.1 = some pr.2 := by
  induction m with
  | nil => simp at hm
  | cons q t ih =>
    obtain ⟨k1, v1⟩ := q
    rw [List.map_cons] at hnd
    have h1 := (List.nodup_cons.mp hnd).1
    have h2 := (List.nodup_cons.mp hnd).2
    rcases List.mem_cons.mp hm with heq | hmem
    · subst heq
      simp [alookup]
    · have hne : pr.1 ≠ k1 := by
        intro h
        exact h1 (h ▸ List.mem_map.mpr ⟨pr, hmem, rfl⟩)
      simp only [alookup]
      rw [if_neg hne]
      exact ih h2 hmem

/-- Membership in a set union. -/
theorem mem_sunion {a : Str} {l1 l2 : List Str} :
    a ∈ sunion l1 l2 ↔ a ∈ l1 ∨ a ∈ l2 := by
  unfold sunion
  rw [List.mem_dedup, List.mem_append]

/-- Generated alias set computed inside _create_user. -/
def createGen (parsed : Option ParsedName) : List Str :=
  if lowerL ((parsed.map (fun p => p.first_name)).getD []) ≠ [] ∧
      lowerL ((parsed.map (fun p => p.last_name)).getD []) ≠ [] then
    _generate_aliases
      (lowerL ((parsed.map (fun p => p.first_name)).getD []))
      (lowerL ((parsed.map (fun p => p.last_name)).getD []))
      (lowerL ((parsed.map (fun p => p.initial)).getD []))
  else []

/-- Unfolding of _create_user into its resulting profile and state. -/
theorem create_user_eq (st : UserPipeline) (aliases : List Str)
    (parsed : Option ParsedName) :
    _create_user st aliases parsed =
      (st.counter,
       ⟨aset st.users st.counter
          ⟨st.counter,
           lowerL ((parsed.map (fun p => p.first_name)).getD []),
           lowerL ((parsed.map (fun p => p.last_name)).getD []),
           createGen parsed,
           sunion aliases (createGen parsed)⟩,
        (sunion aliases (createGen parsed)).foldl
          (fun m a => aset m a st.counter) st.alias_lookup,
        st.counter + 1⟩) := rfl

/-- Structure of the generated alias set at creation time: no duplicates,
cardinality 0, 2 or 4, and emptiness exactly when no first name is stored. -/
theorem createGen_facts (parsed : Option ParsedName) (hwf : ParsedWF parsed) :
    (createGen parsed).Nodup ∧
    ((createGen parsed).length = 0 ∨ (createGen parsed).length = 2 ∨
      (createGen parsed).length = 4) ∧
    ((createGen parsed) = [] ↔
      lowerL ((parsed.map (fun p => p.first_name)).getD []) = []) := by
  cases parsed with
  | none => simp [createGen, lowerL]
  | some p =>
    obtain ⟨h1, h2, h3, h4⟩ := hwf p rfl
    have hF : lowerL p.first_name ≠ [] := lowerL_ne_nil h1
    have hL : lowerL p.last_name ≠ [] := lowerL_ne_nil h2
    have hdF : '.' ∉ lowerL p.first_name := lowerL_not_dot h3
    have hdI : '.' ∉ lowerL p.initial := lowerL_not_dot h4
    have hlen := generate_aliases_length _ _ _ hF hL hdF hdI
    have hG : createGen (some p) =
        _generate_aliases (lowerL p.first_name) (lowerL p.last_name)
          (lowerL p.initial) := by
      unfold createGen
      rw [if_pos ⟨by simpa using hF, by simpa using hL⟩]
      rfl
    rw [hG]
    refine ⟨generate_aliases_nodup _ _ _, ?_, ?_⟩
    · rw [hlen]
      by_cases hi : lowerL p.initial = [] <;> simp [hi]
    · constructor
      · intro hGe
        exfalso
        have hz := congrArg List.length hGe
        rw [hlen] at hz
        by_cases hi : lowerL p.initial = [] <;> simp [hi] at hz
      · intro hFe
        exact absurd (by simpa using hFe) hF

/-- Invariant of the user pipeline maintained by every resolver call: profile
ids are below the counter with duplicate-free keys; every stored profile has
a duplicate-free generated set of cardinality 0, 2 or 4 that is empty exactly
when the profile has no first name; every alias of every stored profile is a
key of the lookup table; and every lookup binding points to an existing
profile that carries the bound alias among its aliases or generated
aliases. -/
def UserInv (st : UserPipeline) : Prop :=
  ((st.users.map Prod.fst).Nodup) ∧
  (∀ id1 p, alookup st.users id1 = some p → id1 < st.counter) ∧
  (∀ id1 p, alookup st.users id1 = some p →
    p.generated_aliases.Nodup ∧
    (p.generated_aliases.length = 0 ∨ p.generated_aliases.length = 2 ∨
      p.generated_aliases.length = 4) ∧
    (p.generated_aliases = [] ↔ p.first_name = []) ∧
    (∀ a ∈ p.aliases, (alookup st.alias_lookup a).isSome)) ∧
  (∀ a id1, alookup st.alias_lookup a = some id1 →
    ∃ p, alookup st.users id1 = some p ∧
      (a ∈ p.aliases ∨ a ∈ p.generated_aliases))

/-- Creating a user preserves the invariant. -/
theorem userInv_create (st : UserPipeline) (aliases : List Str)
    (parsed : Option ParsedName) (hinv : UserInv st) (hwf : ParsedWF parsed) :
    UserInv (_create_user st aliases parsed).2 := by
  obtain ⟨hnd, hbound, hprof, hlook⟩ := hinv
  obtain ⟨hgnd, hglen, hgiff⟩ := createGen_facts parsed hwf
  rw [create_user_eq]
  unfold UserInv
  dsimp only
  refine ⟨nodup_keys_aset _ _ _ hnd, ?_, ?_, ?_⟩
  · intro id1 p h
    rw [alookup_aset] at h
    by_cases hid : id1 = st.counter
    · rw [hid]; omega
    · rw [if_neg hid] at h
      have := hbound id1 p h
      omega
  · intro id1 p h
    rw [alookup_aset] at h
    by_cases hid : id1 = st.counter
    · rw [if_pos hid] at h
      cases h
      refine ⟨hgnd, hglen, hgiff, ?_⟩
      intro a ha
      rw [alookup_regAll, if_pos ha]
      simp
    · rw [if_neg hid] at h
      have hfacts := hprof id1 p h
      refine ⟨hfacts.1, hfacts.2.1, hfacts.2.2.1, ?_⟩
      intro a ha
      rw [alookup_regAll]
      by_cases hmem : a ∈ sunion aliases (createGen parsed)
      · rw [if_pos hmem]; simp
      · rw [if_neg hmem]
        exact hfacts.2.2.2 a ha
  · intro a id1 h
    rw [alookup_regAll] at h
    by_cases hmem : a ∈ sunion aliases (createGen parsed)
    · rw [if_pos hmem] at h
      cases h
      refine ⟨⟨st.counter,
        lowerL ((parsed.map (fun p => p.first_name)).getD []),
        lowerL ((parsed.map (fun p => p.last_name)).getD []),
        createGen parsed,
        sunion aliases (createGen parsed)⟩, ?_, Or.inl hmem⟩
      rw [alookup_aset, if_pos rfl]
    · rw [if_neg hmem] at h
      obtain ⟨p0, hp0, hm0⟩ := hlook a id1 h
      refine ⟨p0, ?_, hm0⟩
      rw [alookup_aset, if_neg ?_]
      · exact hp0
      · have := hbound id1 p0 hp0
        omega

/-- Profile after the name-enrichment step of _update_user. -/
def enrichProfile (profile : UserProfile) (parsed : Option ParsedName) :
    UserProfile :=
  match parsed with
  | some p =>
    if profile.first_name = [] ∧ p.first_name ≠ [] then
      { profile with
        first_name := p.first_name
        last_name := p.last_name
        generated_aliases :=
          sunion profile.generated_aliases
            (_generate_aliases p.first_name p.last_name p.initial) }
    else profile
  | none => profile

/-- Unfolding of _update_user on an existing profile. -/
theorem update_user_eq (st : UserPipeline) (uid : Int) (new_aliases : List Str)
    (parsed : Option ParsedName) (profile : UserProfile)
    (h : alookup st.users uid = some profile) :
    _update_user st uid new_aliases parsed =
      ⟨aset st.users uid
         { enrichProfile profile parsed with
           aliases := sunion (enrichProfile profile parsed).aliases new_aliases },
       (if (enrichProfile profile parsed).generated_aliases ≠ [] then
          (enrichProfile profile parsed).generated_aliases.foldl
            (fun m a => aset m a uid)
            ((sunion (enrichProfile profile parsed).aliases new_aliases).foldl
              (fun m a => if (alookup m a).isSome then m else aset m a uid)
              st.alias_lookup)
        else
          (sunion (enrichProfile profile parsed).aliases new_aliases).foldl
            (fun m a => if (alookup m a).isSome then m else aset m a uid)
            st.alias_lookup),
       st.counter⟩ := by
  unfold _update_user
  rw [h]
  rfl

/-- Enrichment preserves the profile facts of the invariant, extends the
generated set, and leaves the alias set unchanged. -/
theorem enrichProfile_facts (profile : UserProfile) (parsed : Option ParsedName)
    (hwf : ParsedWF parsed)
    (hgnd : profile.generated_aliases.Nodup)
    (hglen : profile.generated_aliases.length = 0 ∨
      profile.generated_aliases.length = 2 ∨ profile.generated_aliases.length = 4)
    (hgiff : profile.generated_aliases = [] ↔ profile.first_name = []) :
    (enrichProfile profile parsed).generated_aliases.Nodup ∧
    ((enrichProfile profile parsed).generated_aliases.length = 0 ∨
      (enrichProfile profile parsed).generated_aliases.length = 2 ∨
      (enrichProfile profile parsed).generated_aliases.length = 4) ∧
    ((enrichProfile profile parsed).generated_aliases = [] ↔
      (enrichProfile profile parsed).first_name = []) ∧
    (∀ a ∈ profile.generated_aliases,
      a ∈ (enrichProfile profile parsed).generated_aliases) ∧
    (enrichProfile profile parsed).aliases = profile.aliases := by
  cases parsed with
  | none => exact ⟨hgnd, hglen, hgiff, fun a ha => ha, rfl⟩
  | some p =>
    unfold enrichProfile
    dsimp only
    by_cases hcond : profile.first_name = [] ∧ p.first_name ≠ []
    · rw [if_pos hcond]
      obtain ⟨h1, h2, h3, h4⟩ := hwf p rfl
      have hge : profile.generated_aliases = [] := hgiff.mpr hcond.1
      have hgen := generate_aliases_length p.first_name p.last_name p.initial
        h1 h2 h3 h4
      have hsu : sunion profile.generated_aliases
          (_generate_aliases p.first_name p.last_name p.initial) =
          _generate_aliases p.first_name p.last_name p.initial := by
        rw [hge]
        unfold sunion
        rw [List.nil_append]
        exact List.dedup_eq_self.mpr (generate_aliases_nodup _ _ _)
      dsimp only
      rw [hsu]
      refine ⟨generate_aliases_nodup _ _ _, ?_, ?_, ?_, rfl⟩
      · rw [hgen]
        by_cases hi : p.initial = [] <;> simp [hi]
      · constructor
        · intro hGe
          exfalso
          have hz := congrArg List.length hGe
          rw [hgen] at hz
          by_cases hi : p.initial = [] <;> simp [hi] at hz
        · intro hFe
          exact absurd hFe h1
      · intro a ha
        rw [hge] at ha
        exact absurd ha (List.not_mem_nil a)
    · rw [if_neg hcond]
      exact ⟨hgnd, hglen, hgiff, fun a ha => ha, rfl⟩

/-- Updating a user preserves the invariant. -/
theorem userInv_update (st : UserPipeline) (uid : Int) (new_aliases : List Str)
    (parsed : Option ParsedName) (hinv : UserInv st) (hwf : ParsedWF parsed) :
    UserInv (_update_user st uid new_aliases parsed) := by
  obtain ⟨hnd, hbound, hprof, hlook⟩ := hinv
  cases hu : alookup st.users uid with
  | none =>
    unfold _update_user
    rw [hu]
    exact ⟨hnd, hbound, hprof, hlook⟩
  | some profile =>
    rw [update_user_eq st uid new_aliases parsed profile hu]
    have hpf := hprof uid profile hu
    obtain ⟨hgnd2, hglen2, hgiff2, hsub, haleq⟩ :=
      enrichProfile_facts profile parsed hwf hpf.1 hpf.2.1 hpf.2.2.1
    have hlookup2 : ∀ x : Str,
        alookup
          (if (enrichProfile profile parsed).generated_aliases ≠ [] then
            (enrichProfile profile parsed).generated_aliases.foldl
              (fun m a => aset m a uid)
              ((sunion (enrichProfile profile parsed).aliases new_aliases).foldl
                (fun m a => if (alookup m a).isSome then m else aset m a uid)
                st.alias_lookup)
          else
            (sunion (enrichProfile profile parsed).aliases new_aliases).foldl
              (fun m a => if (alookup m a).isSome then m else aset m a uid)
              st.alias_lookup) x =
        if x ∈ (enrichProfile profile parsed).generated_aliases then some uid
        else if (alookup st.alias_lookup x).isSome then alookup st.alias_lookup x
        else if x ∈ sunion (enrichProfile profile parsed).aliases new_aliases then
          some uid
        else none := by
      intro x
      by_cases hge : (enrichProfile profile parsed).generated_aliases = []
      · rw [if_neg (by simp [hge]), alookup_regIfAbsent, hge,
          if_neg (List.not_mem_nil x)]
        split_ifs <;> rfl
      · rw [if_pos hge, alookup_regAll, alookup_regIfAbsent]
        split_ifs <;> rfl
    unfold UserInv
    dsimp only
    refine ⟨nodup_keys_aset _ _ _ hnd, ?_, ?_, ?_⟩
    · intro id1 p h
      rw [alookup_aset] at h
      by_cases hid : id1 = uid
      · rw [hid]
        exact hbound uid profile hu
      · rw [if_neg hid] at h
        exact hbound id1 p h
    · intro id1 p h
      rw [alookup_aset] at h
      by_cases hid : id1 = uid
      · rw [if_pos hid] at h
        cases h
        refine ⟨hgnd2, hglen2, hgiff2, ?_⟩
        intro a ha
        rw [hlookup2 a]
        by_cases hin : a ∈ (enrichProfile profile parsed).generated_aliases
        · rw [if_pos hin]; simp
        · rw [if_neg hin]
          by_cases hs : (alookup st.alias_lookup a).isSome
          · rw [if_pos hs]; exact hs
          · rw [if_neg hs, if_pos ha]; simp
      · rw [if_neg hid] at h
        have hfacts := hprof id1 p h
        refine ⟨hfacts.1, hfacts.2.1, hfacts.2.2.1, ?_⟩
        intro a ha
        rw [hlookup2 a]
        by_cases hin : a ∈ (enrichProfile profile parsed).generated_aliases
        · rw [if_pos hin]; simp
        · rw [if_neg hin]
          have hs := hfacts.2.2.2 a ha
          rw [if_pos hs]
          exact hs
    · intro a id1 h
      rw [hlookup2 a] at h
      by_cases hin : a ∈ (enrichProfile profile parsed).generated_aliases
      · rw [if_pos hin] at h
        cases h
        refine ⟨{ enrichProfile profile parsed with
          aliases := sunion (enrichProfile profile parsed).aliases new_aliases },
          ?_, Or.inr hin⟩
        rw [alookup_aset, if_pos rfl]
      · rw [if_neg hin] at h
        by_cases hs : (alookup st.alias_lookup a).isSome
        · rw [if_pos hs] at h
          obtain ⟨p0, hp0, hm0⟩ := hlook a id1 h
          by_cases hid : id1 = uid
          · subst hid
            rw [hu] at hp0
            cases hp0
            refine ⟨{ enrichProfile profile parsed with
              aliases := sunion (enrichProfile profile parsed).aliases new_aliases },
              ?_, ?_⟩
            · rw [alookup_aset, if_pos rfl]
            · rcases hm0 with hma | hmg
              · exact Or.inl (mem_sunion.mpr (Or.inl (haleq ▸ hma)))
              · exact Or.inr (hsub a hmg)
          · refine ⟨p0, ?_, hm0⟩
            rw [alookup_aset, if_neg hid]
            exact hp0
        · rw [if_neg hs] at h
          by_cases hmem : a ∈ sunion (enrichProfile profile parsed).aliases new_aliases
          · rw [if_pos hmem] at h
            cases h
            refine ⟨{ enrichProfile profile parsed with
              aliases := sunion (enrichProfile profile parsed).aliases new_aliases },
              ?_, Or.inl hmem⟩
            rw [alookup_aset, if_pos rfl]
          · rw [if_neg hmem] at h
            exact Option.noConfusion h

/-- A successful set resolution preserves the invariant. -/
theorem userInv_fromSet_ok (st : UserPipeline) (l : List Str)
    (r : Int × UserPipeline) (hres : get_user_id_from_set st l = .ok r)
    (hinv : UserInv st) : UserInv r.2 := by
  unfold get_user_id_from_set at hres
  dsimp only at hres
  split at hres
  · exact Except.noConfusion hres
  · split at hres
    · cases hres
      exact hinv
    · split at hres
      · cases hres
        exact userInv_create st (cleanAliases l) _ hinv (findSome_parse_wf _)
      · cases hres
        exact userInv_update st _ (cleanAliases l) _ hinv (findSome_parse_wf _)

/-- Every resolver call preserves the invariant. -/
theorem userInv_step (st : UserPipeline) (op : UserOp) (hinv : UserInv st) :
    UserInv (applyUserOp st op) := by
  cases op with
  | single a =>
    unfold applyUserOp
    dsimp only
    cases hres : get_user_id st a with
    | error e => exact hinv
    | ok r =>
      show UserInv r.2
      unfold get_user_id at hres
      split at hres
      · exact Except.noConfusion hres
      · dsimp only at hres
        split at hres
        · cases hres
          exact hinv
        · exact userInv_fromSet_ok st _ r hres hinv
  | fromSet l =>
    unfold applyUserOp
    dsimp only
    cases hres : get_user_id_from_set st l with
    | error e => exact hinv
    | ok r =>
      show UserInv r.2
      exact userInv_fromSet_ok st l r hres hinv

/-- Every reachable state of the user pipeline satisfies the invariant. -/
theorem userInv_run (ops : List UserOp) : UserInv (runUserOps ops) := by
  have hgen : ∀ (rest : List UserOp) (st : UserPipeline), UserInv st →
      UserInv (rest.foldl applyUserOp st) := by
    intro rest
    induction rest with
    | nil => intro st h; simpa using h
    | cons op t ih =>
      intro st h
      simpa using ih _ (userInv_step st op h)
  refine hgen ops userPipelineInit ⟨by simp [userPipelineInit], ?_, ?_, ?_⟩
  · intro id1 p h
    simp [userPipelineInit, alookup] at h
  · intro id1 p h
    simp [userPipelineInit, alookup] at h
  · intro a id1 h
    simp [userPipelineInit, alookup] at h

/-- Claim C5 as amended: at every reachable state, every alias recorded on a
stored profile is present as a key of the alias lookup table, and every
lookup binding maps to the identifier of some stored profile that carries
the alias among its aliases or generated aliases; the binding need not point
back to the profile that lists the alias, since a later create or update of
a different profile overwrites it. -/
theorem C5_alias_lookup_amended (ops : List UserOp) (st : UserPipeline)
    (hst : st = runUserOps ops) :
    ∀ pr ∈ st.users, ∀ a ∈ pr.2.aliases,
      ∃ id2 p2, alookup st.alias_lookup a = some id2 ∧
        alookup st.users id2 = some p2 ∧
        (a ∈ p2.aliases ∨ a ∈ p2.generated_aliases) := by
  have hinv : UserInv st := hst ▸ userInv_run ops
  obtain ⟨hnd, hbound, hprof, hlook⟩ := hinv
  intro pr hpr a ha
  have hpl : alookup st.users pr.1 = some pr.2 := alookup_of_mem st.users pr hnd hpr
  have hsome := (hprof pr.1 pr.2 hpl).2.2.2 a ha
  cases hs : alookup st.alias_lookup a with
  | none => rw [hs] at hsome; exact Bool.noConfusion hsome
  | some id2 =>
    obtain ⟨p2, hp2, hm2⟩ := hlook a id2 hs
    exact ⟨id2, p2, rfl, hp2, hm2⟩

/-- Witness for the amended C5: at the state reached by resolving one plain
alias, the alias of the single stored profile is bound in the lookup table
to a profile carrying it. -/
theorem C5_alias_lookup_amended_witness :
    ∃ id2 p2,
      alookup (runUserOps [UserOp.fromSet ["bob".data]]).alias_lookup
        "bob".data = some id2 ∧
      alookup (runUserOps [UserOp.fromSet ["bob".data]]).users id2 = some p2 ∧
      ("bob".data ∈ p2.aliases ∨ "bob".data ∈ p2.generated_aliases) :=
  C5_alias_lookup_amended [UserOp.fromSet ["bob".data]] _ rfl
    (0, ⟨0, [], [], [], ["bob".data]⟩) (by decide) "bob".data (by decide)

/-- Claim C10: at every reachable state, every stored profile has a
duplicate-free generated alias set with exactly 0, 2 or 4 elements, empty
exactly when the profile has no first name; and on well-formed parsed
components the generator yields exactly 2 aliases without an initial and
exactly 4 with one, the four patterns being pairwise distinct. -/
theorem C10_generated_card (ops : List UserOp) (st : UserPipeline)
    (hst : st = runUserOps ops) :
    (∀ id1 p, alookup st.users id1 = some p →
      p.generated_aliases.Nodup ∧
      (p.generated_aliases.length = 0 ∨ p.generated_aliases.length = 2 ∨
        p.generated_aliases.length = 4) ∧
      (p.generated_aliases.length = 0 ↔ p.first_name = [])) ∧
    (∀ f l i : Str, f ≠ [] → l ≠ [] → '.' ∉ f → '.' ∉ i →
      (_generate_aliases f l i).length = if i = [] then 2 else 4) := by
  have hinv : UserInv st := hst ▸ userInv_run ops
  obtain ⟨hnd, hbound, hprof, hlook⟩ := hinv
  constructor
  · intro id1 p h
    have hfacts := hprof id1 p h
    refine ⟨hfacts.1, hfacts.2.1, ?_⟩
    rw [List.length_eq_zero]
    exact hfacts.2.2.1
  · intro f l i hf hl hdf hdi
    exact generate_aliases_length f l i hf hl hdf hdi

/-- Witness for C10 at a run creating one fully named profile: the theorem
applies at that state, and the created profile indeed carries four generated
aliases together with a first name. -/
theorem C10_generated_card_witness :
    (∀ id1 p, alookup (runUserOps [UserOp.fromSet ["doe, john x".data]]).users
        id1 = some p →
      p.generated_aliases.Nodup ∧
      (p.generated_aliases.length = 0 ∨ p.generated_aliases.length = 2 ∨
        p.generated_aliases.length = 4) ∧
      (p.generated_aliases.length = 0 ↔ p.first_name = [])) ∧
    (alookup (runUserOps [UserOp.fromSet ["doe, john x".data]]).users 0).map
      (fun p => p.generated_aliases.length) = some 4 :=
  ⟨(C10_generated_card [UserOp.fromSet ["doe, john x".data]] _ rfl).1,
   by decide⟩
